import Mathlib

/-!
Verification of the CESSDA SKG-IF ELSST autocomplete server
(`src/server.py`, multilingual variant, and `src/app/server.py`, legacy
full-hierarchy variant) against its natural-language specification.

The development has two layers:

* a dynamic layer: a shallow embedding of the JSON values produced by
  Python's `json.load` together with the dynamic (duck-typed) behaviour
  of `load_elsst_data` — including the exceptions Python raises on
  ill-typed data (`TypeError`, `AttributeError`) and the exceptions the
  function's `try/except` does *not* catch (`UnicodeDecodeError` is not a
  subclass of `json.JSONDecodeError`, so a file that is not valid UTF-8
  raises through);

* a typed layer: the concept store as described by the spec's data model
  (string-keyed records with string labels), over which the search index
  builder, the query engine and the two presentation profiles are
  embedded and verified.

Python dictionaries are modelled as association lists in insertion
order; assignment to an existing key replaces the value in place,
assignment to a new key appends.  Python `str.lower` is modelled by
`String.toLower` (exact on ASCII).  Python `sorted` on strings and
Lean's `≤` on `String` both compare code points lexicographically.
-/

/-- A JSON value as produced by Python's `json.load`: JSON object keys
are always strings; numbers are modelled as integers (no claim involves
float behaviour). -/
inductive Json where
  | null
  | bool (b : Bool)
  | num (n : Int)
  | str (s : String)
  | arr (elems : List Json)
  | obj (fields : List (String × Json))

/-- The hashable Python values that can appear as dictionary keys in the
loader (label languages, concept ids).  Lists and dicts are unhashable
and raise `TypeError` on use as a key. -/
inductive JKey where
  | knull
  | kbool (b : Bool)
  | knum (n : Int)
  | kstr (s : String)
deriving DecidableEq

/-- Exceptions the embedded Python code can raise. -/
inductive PyErr where
  | typeError
  | attributeError
  | unicodeDecodeError
deriving DecidableEq

/-- Lookup of a string key in a JSON object's field list (Python dict
lookup; keys of a dict coming from `json.load` are unique). -/
def objLookup : List (String × Json) → String → Option Json
  | [], _ => none
  | p :: rest, k => if p.1 = k then some p.2 else objLookup rest k

/-- Python `k in d` for a dict `d`. -/
def hasKey (kvs : List (String × Json)) (k : String) : Bool :=
  kvs.any (fun p => p.1 == k)

/-- Python `==` between a JSON value and a string constant: only a
`str` can equal a string. -/
def jsonEqStr (j : Json) (s : String) : Bool :=
  match j with
  | .str t => t == s
  | _ => false

/-- Python truthiness of a JSON value. -/
def pyTruthy : Json → Bool
  | .null => false
  | .bool b => b
  | .num n => n != 0
  | .str s => s != ""
  | .arr l => !l.isEmpty
  | .obj kvs => !kvs.isEmpty

/-- Python iteration `for x in j`: lists yield elements, strings yield
one-character strings, dicts yield their keys; `None`, booleans and
numbers are not iterable (`TypeError`). -/
def pyIter : Json → Except PyErr (List Json)
  | .arr l => .ok l
  | .str s => .ok (s.data.map (fun c => Json.str (String.mk [c])))
  | .obj kvs => .ok (kvs.map (fun p => Json.str p.1))
  | _ => .error .typeError

/-- Python `j.get(k)`: only dicts have a `get` method (`AttributeError`
otherwise); a missing key yields `None`. -/
def pyGet (j : Json) (k : String) : Except PyErr Json :=
  match j with
  | .obj kvs => .ok ((objLookup kvs k).getD .null)
  | _ => .error .attributeError

/-- Which JSON values are hashable (usable as Python dict keys). -/
def Json.toKey? : Json → Option JKey
  | .null => some .knull
  | .bool b => some (.kbool b)
  | .num n => some (.knum n)
  | .str s => some (.kstr s)
  | .arr _ => none
  | .obj _ => none

/-- The JSON value a key stands for. -/
def JKey.toJson : JKey → Json
  | .knull => .null
  | .kbool b => .bool b
  | .knum n => .num n
  | .kstr s => .str s

/-- Python dict assignment `d[k] = v` on an insertion-ordered dict:
replace in place if the key exists, else append. -/
def dictInsert : List (JKey × Json) → JKey → Json → List (JKey × Json)
  | [], k, v => [(k, v)]
  | p :: rest, k, v => if p.1 = k then (k, v) :: rest else p :: dictInsert rest k v

/-- Python `d.setdefault(k, []).append(v)` on an insertion-ordered dict
of lists. -/
def dictAppend : List (JKey × List Json) → JKey → Json → List (JKey × List Json)
  | [], k, v => [(k, [v])]
  | p :: rest, k, v =>
    if p.1 = k then (p.1, p.2 ++ [v]) :: rest else p :: dictAppend rest k v

/-- Dict lookup keyed by a hashable value. -/
def dictLookup : List (JKey × Json) → JKey → Option Json
  | [], _ => none
  | p :: rest, k => if p.1 = k then some p.2 else dictLookup rest k

/-- One concept record as built by `load_elsst_data` in `src/server.py`
(dynamic layer): the raw `@id` value, the per-language preferred-label
dict, the per-language alternative-label dict, and the broader id
(`Json.null` models Python `None`). -/
structure RawRecord where
  id : Json
  prefLabels : List (JKey × Json)
  altLabels : List (JKey × List Json)
  broader : Json

/-- Assignment `processed_data[concept_id] = record`. -/
def storeInsert : List (JKey × RawRecord) → JKey → RawRecord → List (JKey × RawRecord)
  | [], k, v => [(k, v)]
  | p :: rest, k, v => if p.1 = k then (k, v) :: rest else p :: storeInsert rest k v

/-- SKOS URI constants from the source. -/
def SKOS_CONCEPT : String := "http://www.w3.org/2004/02/skos/core#Concept"

def SKOS_PREF_LABEL : String := "http://www.w3.org/2004/02/skos/core#prefLabel"

def SKOS_ALT_LABEL : String := "http://www.w3.org/2004/02/skos/core#altLabel"

def SKOS_BROADER : String := "http://www.w3.org/2004/02/skos/core#broader"

/-- The prefLabel loop of `load_elsst_data` (src/server.py lines 84-89):
`for label in ...: lang = label.get('@language'); value =
label.get('@value'); if lang and value: pref_labels[lang] = value`.
A non-dict element raises `AttributeError` at `.get`; an unhashable
truthy language raises `TypeError` at the dict assignment. -/
def extractPrefLabels : List Json → List (JKey × Json) → Except PyErr (List (JKey × Json))
  | [], acc => .ok acc
  | label :: rest, acc =>
    match pyGet label "@language", pyGet label "@value" with
    | .error e, _ => .error e
    | .ok _, .error e => .error e
    | .ok lang, .ok value =>
      if pyTruthy lang && pyTruthy value then
        match lang.toKey? with
        | some k => extractPrefLabels rest (dictInsert acc k value)
        | none => .error .typeError
      else extractPrefLabels rest acc

/-- The altLabel loop (src/server.py lines 92-97): same guard, but
values are grouped per language with `setdefault(lang, []).append`. -/
def extractAltLabels : List Json → List (JKey × List Json) → Except PyErr (List (JKey × List Json))
  | [], acc => .ok acc
  | label :: rest, acc =>
    match pyGet label "@language", pyGet label "@value" with
    | .error e, _ => .error e
    | .ok _, .error e => .error e
    | .ok lang, .ok value =>
      if pyTruthy lang && pyTruthy value then
        match lang.toKey? with
        | some k => extractAltLabels rest (dictAppend acc k value)
        | none => .error .typeError
      else extractAltLabels rest acc

/-- The broader extraction (src/server.py lines 100-103):
`broader = concept.get(SKOS_BROADER, []); if isinstance(broader, dict):
broader = [broader]; broader_id = broader[0].get('@id') if broader else
None`.  A falsy value yields `None`; a truthy non-subscriptable value
raises `TypeError`; subscripting a nonempty string yields a
one-character string, whose `.get` raises `AttributeError`. -/
def extractBroader : Json → Except PyErr Json
  | .obj kvs => .ok ((objLookup kvs "@id").getD .null)
  | .arr [] => .ok .null
  | .arr (x :: _) =>
    match x with
    | .obj kvs => .ok ((objLookup kvs "@id").getD .null)
    | _ => .error .attributeError
  | .null => .ok .null
  | .bool false => .ok .null
  | .bool true => .error .typeError
  | .num n => if n = 0 then .ok .null else .error .typeError
  | .str s => if s = "" then .ok .null else .error .attributeError

/-- `SKOS_CONCEPT not in types` after the string-wrapping step: `in` on
a list compares elements with `==`, on a dict tests keys, on a string
tests substring containment; `None`, booleans and numbers support no
`in` (`TypeError`). -/
def typeContains : Json → Except PyErr Bool
  | .arr l => .ok (l.any (fun j => jsonEqStr j SKOS_CONCEPT))
  | .obj kvs => .ok (kvs.any (fun p => p.1 == SKOS_CONCEPT))
  | .str s => .ok (decide (SKOS_CONCEPT.data <:+: s.data))
  | _ => .error .typeError

/-- Processing of one node of the graph by the loop body of
`load_elsst_data` (src/server.py lines 70-110). -/
def processNode (store : List (JKey × RawRecord)) (concept : Json) :
    Except PyErr (List (JKey × RawRecord)) :=
  match concept with
  | .obj kvs =>
    if hasKey kvs "@id" = false then .ok store
    else
      let types0 := (objLookup kvs "@type").getD (.arr [])
      let types := match types0 with
        | .str s => Json.arr [.str s]
        | t => t
      match typeContains types with
      | .error e => .error e
      | .ok false => .ok store
      | .ok true =>
        let cid := (objLookup kvs "@id").getD .null
        match pyIter ((objLookup kvs SKOS_PREF_LABEL).getD (.arr [])) with
        | .error e => .error e
        | .ok prefItems =>
          match extractPrefLabels prefItems [] with
          | .error e => .error e
          | .ok pref_labels =>
            match pyIter ((objLookup kvs SKOS_ALT_LABEL).getD (.arr [])) with
            | .error e => .error e
            | .ok altItems =>
              match extractAltLabels altItems [] with
              | .error e => .error e
              | .ok alt_labels =>
                match extractBroader ((objLookup kvs SKOS_BROADER).getD (.arr [])) with
                | .error e => .error e
                | .ok broader_id =>
                  match cid.toKey? with
                  | some k =>
                    .ok (storeInsert store k ⟨cid, pref_labels, alt_labels, broader_id⟩)
                  | none => .error .typeError
  | _ => .ok store

/-- The node loop of `load_elsst_data`. -/
def processGraph : List Json → List (JKey × RawRecord) → Except PyErr (List (JKey × RawRecord))
  | [], store => .ok store
  | c :: rest, store =>
    match processNode store c with
    | .error e => .error e
    | .ok store2 => processGraph rest store2

/-- Python `'@graph' in item` at the top-level-list branch. -/
def pyContainsGraph : Json → Except PyErr Bool
  | .obj kvs => .ok (kvs.any (fun p => p.1 == "@graph"))
  | .arr l => .ok (l.any (fun j => jsonEqStr j "@graph"))
  | .str s => .ok (decide ("@graph".data <:+: s.data))
  | _ => .error .typeError

/-- `for item in data: if '@graph' in item: graph.extend(item['@graph'])`
(src/server.py lines 61-63).  Subscripting a non-dict `item` with a
string raises `TypeError`; `extend` iterates its argument. -/
def collectGraph : List Json → List Json → Except PyErr (List Json)
  | [], acc => .ok acc
  | item :: rest, acc =>
    match pyContainsGraph item with
    | .error e => .error e
    | .ok false => collectGraph rest acc
    | .ok true =>
      match item with
      | .obj kvs =>
        match pyIter ((objLookup kvs "@graph").getD .null) with
        | .error e => .error e
        | .ok l => collectGraph rest (acc ++ l)
      | _ => .error .typeError

/-- The possible outcomes of `open(filepath, encoding='utf-8')` followed
by `json.load`: the file may be missing (`FileNotFoundError`, caught),
not valid UTF-8 (`UnicodeDecodeError`, which is *not* a subclass of
`json.JSONDecodeError` and is therefore not caught by the function's
`except` clauses), not valid JSON (`json.JSONDecodeError`, caught), or a
parsed JSON value. -/
inductive LoadSource where
  | missingFile
  | badEncoding
  | badJson
  | parsed (data : Json)

/-- `load_elsst_data` of src/server.py (lines 32-113): the caught
exceptions return an empty store; an undecodable file raises through;
a parsed document is navigated into its `@graph` node list and each node
is processed. -/
def load_elsst_data : LoadSource → Except PyErr (List (JKey × RawRecord))
  | .missingFile => .ok []
  | .badEncoding => .error .unicodeDecodeError
  | .badJson => .ok []
  | .parsed data =>
    match data with
    | .obj kvs =>
      if hasKey kvs "@graph" then
        match pyIter ((objLookup kvs "@graph").getD .null) with
        | .error e => .error e
        | .ok graph => processGraph graph []
      else .ok []
    | .arr items =>
      match collectGraph items [] with
      | .error e => .error e
      | .ok graph => processGraph graph []
    | _ => .ok []

/-! ## Typed layer: the data model of the spec (§3) for `src/server.py`

The spec's ConceptRecord: string id, at most one preferred label per
2-letter language code, ordered alternative labels per language, an
optional single broader id.  Stores are Python dicts of such records in
insertion order. -/

/-- A normalized concept record (multilingual variant, src/server.py). -/
structure ConceptRecord where
  id : String
  prefLabels : List (String × String)
  altLabels : List (String × List String)
  broader : Option String
deriving DecidableEq

/-- The in-memory concept store `ELSST_DATA`, in insertion order. -/
abbrev Store := List (String × ConceptRecord)

/-- `ELSST_DATA.get(concept_id)`. -/
def lookupStore : Store → String → Option ConceptRecord
  | [], _ => none
  | p :: rest, k => if p.1 = k then some p.2 else lookupStore rest k

/-- `search_index.setdefault(lang, []).append(entry)`
(src/server.py lines 133 and 138). -/
def idxAppend : List (String × List (String × String)) → String → String × String →
    List (String × List (String × String))
  | [], lang, e => [(lang, [e])]
  | p :: rest, lang, e =>
    if p.1 = lang then (p.1, p.2 ++ [e]) :: rest else p :: idxAppend rest lang e

/-- `SEARCH_INDEX.get(lang, [])`. -/
def indexFor : List (String × List (String × String)) → String → List (String × String)
  | [], _ => []
  | p :: rest, lang => if p.1 = lang then p.2 else indexFor rest lang

/-- `build_search_index` (src/server.py lines 116-144): for each concept
in store order, append one `(label.lower(), concept_id)` entry per
prefLabels pair, then one per altLabels element in list order. -/
def build_search_index (processed_data : Store) : List (String × List (String × String)) :=
  processed_data.foldl
    (fun search_index kv =>
      let idx1 := kv.2.prefLabels.foldl
        (fun a p => idxAppend a p.1 (p.2.toLower, kv.1)) search_index
      kv.2.altLabels.foldl
        (fun a p => p.2.foldl (fun a2 label => idxAppend a2 p.1 (label.toLower, kv.1)) a)
        idx1)
    []

/-- The spec's description of the per-language posting list (§4.2),
written from the spec's words for the refinement claim C8: for every
concept in store-iteration order, one entry per prefLabels pair of the
language, then one entry per altLabels element of the language in list
order, with no deduplication. -/
def postingSpec (store : Store) (lang : String) : List (String × String) :=
  store.flatMap (fun kv =>
    (kv.2.prefLabels.filter (fun p => p.1 = lang)).map (fun p => (p.2.toLower, kv.1)) ++
    (kv.2.altLabels.filter (fun p => p.1 = lang)).flatMap
      (fun p => p.2.map (fun label => (label.toLower, kv.1))))

/-- Python `needle in hay` substring test on strings. -/
def containsSub (needle hay : String) : Bool :=
  decide (needle.data <:+: hay.data)

/-- One item of the flat-result profile as produced by
`format_topic_for_response` (src/server.py lines 156-163): note the
empty `identifiers` placeholder is present here. -/
structure TopicResultItem where
  local_identifier : String
  identifiers : List String
  entity_type : String
  labels : List (String × String)
deriving DecidableEq

/-- `format_topic_for_response` (src/server.py lines 156-163). -/
def format_topic_for_response (concept_data : ConceptRecord) : TopicResultItem :=
  { local_identifier := concept_data.id
    identifiers := []
    entity_type := "topic"
    labels := concept_data.prefLabels }

/-- The `meta` envelope of the flat-result profile. -/
structure SearchMeta where
  count : Nat
  page : Nat
  page_size : Nat
deriving DecidableEq

/-- The flat-result response of `topic_result`. -/
structure SearchResponse where
  meta : SearchMeta
  results : List TopicResultItem
deriving DecidableEq

/-- The set of matching concept ids (src/server.py lines 300-307):
iterate the language's posting list, adding the concept id of every
entry whose label contains the lowercased query. -/
def searchMatches (entries : List (String × String)) (query : String) : Finset String :=
  entries.foldl
    (fun acc e => if containsSub query e.1 then insert e.2 acc else acc) ∅

/-- The result-building phase of `topic_result` (src/server.py lines
296-326), after validation produced `search_term` and `language_code`.
Python's `sorted(list(matching_concept_ids))` is modelled by
`Finset.sort (· ≤ ·)`; both orders are the lexicographic code-point
order on the distinct matching ids.  The record dicts built by the
loader are never empty, so `if concept_data:` is the `Option` test. -/
def searchResults (store : Store) (search_term language_code : String) : SearchResponse :=
  let query := search_term.toLower
  let labels_for_lang := indexFor (build_search_index store) language_code
  let matching_concept_ids := searchMatches labels_for_lang query
  let results := (matching_concept_ids.sort (· ≤ ·)).filterMap
    (fun concept_id => (lookupStore store concept_id).map format_topic_for_response)
  { meta := { count := results.length, page := 0, page_size := 0 }, results := results }

/-! ### Filter validation of `topic_result` (src/server.py lines 256-297)

Strings are split as lists of characters, mirroring Python string
methods: `filter.split(',')`, `part.split(':', 1)` and `.strip()`. -/

/-- Python `s.split(sep)` for a one-character separator: never returns
an empty list; the empty string yields one empty part. -/
def splitOnChar (sep : Char) : List Char → List (List Char)
  | [] => [[]]
  | c :: rest =>
    match splitOnChar sep rest with
    | [] => [[]]
    | g :: gs => if c = sep then [] :: g :: gs else (c :: g) :: gs

/-- Python `part.split(sep, 1)` restricted to its use site: `none` when
the separator is absent (where tuple unpacking raises `ValueError`),
otherwise the parts before and after the first separator. -/
def splitOnce (sep : Char) : List Char → Option (List Char × List Char)
  | [] => none
  | c :: rest =>
    if c = sep then some ([], rest)
    else (splitOnce sep rest).map (fun p => (c :: p.1, p.2))

/-- Python `s.strip()` (exact on ASCII whitespace). -/
def pyStrip (l : List Char) : List Char :=
  ((l.dropWhile Char.isWhitespace).reverse.dropWhile Char.isWhitespace).reverse

/-- Assignment into the parsed `filter_params` dict. -/
def paramsInsert : List (List Char × List Char) → List Char → List Char →
    List (List Char × List Char)
  | [], k, v => [(k, v)]
  | p :: rest, k, v => if p.1 = k then (k, v) :: rest else p :: paramsInsert rest k v

/-- `filter_params.get(key)`. -/
def paramsGet : List (List Char × List Char) → List Char → Option (List Char)
  | [], _ => none
  | p :: rest, k => if p.1 = k then some p.2 else paramsGet rest k

/-- The structured body of a 422 validation error: HTTP status plus the
`loc` / `msg` / `type` fields of the detail object raised with
`HTTPException` (src/server.py lines 262-294). -/
structure ValidationError where
  status : Nat
  loc : List String
  msg : String
  typ : String
deriving DecidableEq

/-- The malformed-filter 422 (src/server.py lines 263-270). -/
def malformedFilterError : ValidationError :=
  { status := 422
    loc := ["query", "filter"]
    msg := "Filter parameter is malformed. Expected format: \x27key1:value1,key2:value2\x27."
    typ := "value_error.format" }

/-- The missing/short `cf.search.labels` 422 (lines 275-282). -/
def missingLabelsError : ValidationError :=
  { status := 422
    loc := ["query", "filter"]
    msg := "A \x27cf.search.labels\x27 key with a value of at least 3 characters must be provided in the filter."
    typ := "value_error.missing" }

/-- The invalid `cf.search.language` 422 (lines 287-294). -/
def badLanguageError : ValidationError :=
  { status := 422
    loc := ["query", "filter"]
    msg := "If provided, the value for \x27cf.search.language\x27 must be a 2-letter ISO 639-1 code."
    typ := "value_error.pattern" }

/-- The filter-parsing loop (lines 257-270): split on commas, split each
part at its first colon (raising the malformed-filter 422 when a part
has none), strip key and value, assign into the params dict. -/
def parseParts : List (List Char) → List (List Char × List Char) →
    Except ValidationError (List (List Char × List Char))
  | [], acc => .ok acc
  | part :: rest, acc =>
    match splitOnce ':' part with
    | none => .error malformedFilterError
    | some (key, value) => parseParts rest (paramsInsert acc (pyStrip key) (pyStrip value))

/-- `re.match("^[a-z]{2}$", s)` with Python semantics: `$` also matches
just before a single trailing newline, so a two-letter code followed by
one `\n` is accepted. -/
def matchLang (l : List Char) : Bool :=
  match l with
  | [a, b] => ('a' ≤ a && a ≤ 'z') && ('a' ≤ b && b ≤ 'z')
  | [a, b, c] => ('a' ≤ a && a ≤ 'z') && ('a' ≤ b && b ≤ 'z') && c = '\n'
  | _ => false

/-- The validation phase of `topic_result` (src/server.py lines 256-296):
parse the filter, require a `cf.search.labels` value of at least 3
characters, default `cf.search.language` to `en` and check it against
`^[a-z]{2}$`; returns the accepted `(search_term, language_code)`. -/
def parse_filter (filter : String) : Except ValidationError (String × String) :=
  match parseParts (splitOnChar ',' filter.data) [] with
  | .error e => .error e
  | .ok filter_params =>
    match paramsGet filter_params "cf.search.labels".data with
    | none => .error missingLabelsError
    | some search_term =>
      if search_term.length < 3 then .error missingLabelsError
      else
        let language_code := (paramsGet filter_params "cf.search.language".data).getD "en".data
        if matchLang language_code then .ok (String.mk search_term, String.mk language_code)
        else .error badLanguageError

/-- The `topic_result` endpoint (src/server.py lines 240-326): validate
the filter, then search.  (FastAPI's `min_length=19` on the raw query
parameter rejects only strings too short to ever validate, with the same
422 status, so it is not modelled separately.) -/
def topic_result (store : Store) (filter : String) : Except ValidationError SearchResponse :=
  match parse_filter filter with
  | .error e => .error e
  | .ok (search_term, language_code) => .ok (searchResults store search_term language_code)

/-! ### `topic_single` (src/server.py lines 195-237)

The response is modelled as a `Json` value to make the *set of keys* of
the emitted graph item visible: in the source the `"identifiers"` entry
of this endpoint's item is commented out (lines 218-223). -/

/-- Configuration constants (src/server.py lines 16-18). -/
def SKG_IF_BASE_URL : String := "https://w3id.org/skg-if/sandbox/cessda-elsst/"

def SKG_IF_CONTEXT_URL : String := "https://w3id.org/skg-if/context/1.0.1/skg-if.json"

def ELSST_DATASOURCE_ID : String := "urn:cessda:elsst-v5"

/-- A multilingual label map as a JSON object. -/
def labelsJson (ls : List (String × String)) : Json :=
  .obj (ls.map (fun p => (p.1, .str p.2)))

/-- Key-presence test on a JSON object. -/
def jsonHasKey (j : Json) (k : String) : Bool :=
  match j with
  | .obj kvs => kvs.any (fun p => p.1 == k)
  | _ => false

/-- Field lookup on a JSON object. -/
def jGet (j : Json) (k : String) : Option Json :=
  match j with
  | .obj kvs => objLookup kvs k
  | _ => none

/-- The single graph item built inline by `topic_single` (lines
216-226): local identifier, entity type and the full multilingual
label map — and no `identifiers` entry, which is commented out. -/
def topicSingleItem (concept_data : ConceptRecord) : Json :=
  .obj [("local_identifier", .str concept_data.id),
        ("entity_type", .str "topic"),
        ("labels", labelsJson concept_data.prefLabels)]

/-- The `topic_single` endpoint (src/server.py lines 195-237): a missing
id raises a 404 `HTTPException` with a detail string; a present id
yields the JSON-LD envelope with exactly one graph item.  Record dicts
are never empty, so `if not concept_data:` is the `Option` test. -/
def topic_single (store : Store) (topic_id : String) : Except (Nat × String) Json :=
  match lookupStore store topic_id with
  | none => .error (404, "Topic with ID \x27" ++ topic_id ++ "\x27 not found.")
  | some concept_data =>
    .ok (.obj [("@context", .arr [.str SKG_IF_CONTEXT_URL,
                                  .obj [("@base", .str SKG_IF_BASE_URL)]]),
               ("@graph", .arr [topicSingleItem concept_data])])

/-! ## Typed layer: the legacy full-hierarchy variant (`src/app/server.py`)

Records of this variant hold one English preferred label, a flat list of
alternative labels and an optional broader id. -/

/-- A concept record of the legacy variant (src/app/server.py lines
100-105): `prefLabel` defaults to the empty string when no English label
exists; `broader` is `None` or the raw `@id` string of the first broader
object (which the source data could make empty). -/
structure AppRecord where
  id : String
  prefLabel : String
  altLabel : List String
  broader : Option String
deriving DecidableEq

/-- The legacy variant's in-memory store. -/
abbrev AppStore := List (String × AppRecord)

/-- `get_concept_by_id` (src/app/server.py lines 124-126). -/
def get_concept_by_id : AppStore → String → Option AppRecord
  | [], _ => none
  | p :: rest, k => if p.1 = k then some p.2 else get_concept_by_id rest k

/-- The body of `get_parent_hierarchy`'s bounded loop (src/app/server.py
lines 130-142), with the remaining iteration budget of `range(20)` made
explicit.  `current_id` is `None` or a string; Python's
`if not current_id: break` also fires on the *empty* string.  A found
concept contributes its id and the walk follows its `broader`; a
dangling id ends the walk silently. -/
def gph_go (store : AppStore) : Nat → Option String → Finset String → Finset String
  | 0, _, hierarchy => hierarchy
  | _ + 1, none, hierarchy => hierarchy
  | n + 1, some current_id, hierarchy =>
    if current_id = "" then hierarchy
    else
      match get_concept_by_id store current_id with
      | some concept => gph_go store n concept.broader (insert current_id hierarchy)
      | none => hierarchy

/-- `get_parent_hierarchy` (src/app/server.py lines 128-142). -/
def get_parent_hierarchy (store : AppStore) (concept_id : String) : Finset String :=
  gph_go store 20 (some concept_id) ∅

/-- The list of ids visited by `get_parent_hierarchy`, in visit order: a
reference chain used to state what the loop collects. -/
def gph_visit (store : AppStore) : Nat → Option String → List String
  | 0, _ => []
  | _ + 1, none => []
  | n + 1, some current_id =>
    if current_id = "" then []
    else
      match get_concept_by_id store current_id with
      | some concept => current_id :: gph_visit store n concept.broader
      | none => []

/-- The broader link actually followed from a found id. -/
def broaderLink (store : AppStore) (a : String) : Option String :=
  (get_concept_by_id store a).bind (fun c => c.broader)

/-! ### `to_skgif_topic` and `urllib.parse.quote` -/

/-- The UTF-8 bytes of a character, as natural numbers. -/
def utf8Bytes (c : Char) : List Nat :=
  let n := c.toNat
  if n < 0x80 then [n]
  else if n < 0x800 then [0xC0 + n / 0x40, 0x80 + n % 0x40]
  else if n < 0x10000 then
    [0xE0 + n / 0x1000, 0x80 + n / 0x40 % 0x40, 0x80 + n % 0x40]
  else
    [0xF0 + n / 0x40000, 0x80 + n / 0x1000 % 0x40, 0x80 + n / 0x40 % 0x40, 0x80 + n % 0x40]

/-- The bytes `urllib.parse.quote` leaves unescaped with its default
`safe='/'`: ASCII letters, digits, `_.-~` and the slash. -/
def quoteSafeByte (b : Nat) : Bool :=
  (0x41 ≤ b && b ≤ 0x5A) || (0x61 ≤ b && b ≤ 0x7A) || (0x30 ≤ b && b ≤ 0x39) ||
    b = 0x5F || b = 0x2E || b = 0x2D || b = 0x7E || b = 0x2F

/-- An uppercase hexadecimal digit. -/
def hexDigit (n : Nat) : Char :=
  if n < 10 then Char.ofNat (0x30 + n) else Char.ofNat (0x41 + (n - 10))

/-- `urllib.parse.quote(s)` (default `safe='/'`): UTF-8 encode, keep
safe bytes, percent-encode the rest in uppercase hexadecimal. -/
def pyQuote (s : String) : String :=
  String.mk ((s.data.flatMap utf8Bytes).flatMap
    (fun b => if quoteSafeByte b then [Char.ofNat b] else ['%', hexDigit (b / 16), hexDigit (b % 16)]))

/-- `get_data_source` (src/app/server.py lines 163-171). -/
def get_data_source : Json :=
  .obj [("@id", .str ELSST_DATASOURCE_ID),
        ("@type", .str "DataSource"),
        ("local_identifier", .str "elsst-v5"),
        ("name", .str "European Language Social Science Thesaurus (ELSST) - Version 5"),
        ("url", .str "https://thesauri.cessda.eu/elsst-5/en/")]

/-- `to_skgif_topic` (src/app/server.py lines 144-161): the minted
global `@id` is the fixed base URL followed by the percent-encoded local
identifier; `alternate_name` is added only for a truthy (nonempty)
`altLabel` list and `parent_topic` only for a truthy (non-`None` *and*
nonempty) `broader` — the parent reference names the parent's local
identifier only. -/
def to_skgif_topic (concept_data : AppRecord) : Json :=
  let local_id := concept_data.id
  let base := [("@id", Json.str (SKG_IF_BASE_URL ++ pyQuote local_id)),
               ("@type", Json.str "Topic"),
               ("local_identifier", Json.str local_id),
               ("name", Json.str concept_data.prefLabel),
               ("source", Json.obj [("@id", Json.str ELSST_DATASOURCE_ID)])]
  let withAlt :=
    if concept_data.altLabel.isEmpty then base
    else base ++ [("alternate_name", Json.arr (concept_data.altLabel.map Json.str))]
  let withParent :=
    match concept_data.broader with
    | none => withAlt
    | some parent =>
      if parent = "" then withAlt
      else withAlt ++ [("parent_topic",
        Json.obj [("@type", Json.str "Topic"), ("local_identifier", Json.str parent)])]
  Json.obj withParent

/-! ### The `autocomplete` endpoint (src/app/server.py lines 175-221) -/

/-- The matching loop (lines 187-195): a concept matches when the
lowercased query is a substring of its lowercased preferred label or of
some lowercased alternative label. -/
def autoMatches (store : AppStore) (query : String) : Finset String :=
  store.foldl
    (fun acc kv =>
      let acc1 := if containsSub query kv.2.prefLabel.toLower then insert kv.1 acc else acc
      if kv.2.altLabel.any (fun al => containsSub query al.toLower) then insert kv.1 acc1
      else acc1)
    ∅

/-- The `@graph` list built by `autocomplete` (lines 198-208): the data
source descriptor first, then one topic node per related id.  Python
iterates `all_related_ids` (a set) in unspecified order; the model fixes
the sorted order — no theorem below depends on the order of this tail. -/
def autocomplete_graph (store : AppStore) (q : String) : List Json :=
  let query := q.toLower
  let matching_concept_ids := autoMatches store query
  let all_related_ids := matching_concept_ids.biUnion
    (fun concept_id => get_parent_hierarchy store concept_id)
  get_data_source :: (all_related_ids.sort (· ≤ ·)).filterMap
    (fun concept_id => (get_concept_by_id store concept_id).map to_skgif_topic)

/-- The full `autocomplete` response (lines 210-219). -/
def autocomplete (store : AppStore) (q : String) : Json :=
  .obj [("@context", .arr [.str "https://w3id.org/skg-if/context/skg-if.json",
                           .obj [("@base", .str SKG_IF_BASE_URL)]]),
        ("@graph", .arr (autocomplete_graph store q))]

/-! ## Concrete inputs used by the closed instantiations below -/

/-- A one-concept store of the multilingual variant. -/
def wRecord1 : ConceptRecord :=
  { id := "uri:1", prefLabels := [("en", "Poverty")],
    altLabels := [("en", ["Destitution"])], broader := none }

/-- Store holding `wRecord1`. -/
def wStore1 : Store := [("uri:1", wRecord1)]

/-- A store of the legacy variant whose only key is the empty string —
producible by the loader from a node with `"@id": ""`. -/
def cexStore2 : AppStore := [("", { id := "", prefLabel := "", altLabel := [], broader := none })]

/-- A two-concept parent chain of the legacy variant. -/
def wStore2 : AppStore :=
  [("A", { id := "A", prefLabel := "Alpha", altLabel := [], broader := some "B" }),
   ("B", { id := "B", prefLabel := "Beta", altLabel := [], broader := none })]

/-- A record whose `broader` field is set to the empty string —
producible by the loader from `broader: [{"@id": ""}]`. -/
def cexRec7 : AppRecord := { id := "A", prefLabel := "Alpha", altLabel := [], broader := some "" }

/-- A record with a space in its id (exercising percent-encoding) and a
nonempty broader parent. -/
def wRec7 : AppRecord :=
  { id := "A B", prefLabel := "Alpha", altLabel := ["Al"], broader := some "P1" }

/-- A prefLabel pair as a JSON-LD label object. -/
def mkLabel (p : String × String) : Json :=
  .obj [("@language", .str p.1), ("@value", .str p.2)]

/-- A single-Concept JSON-LD document whose preferred-label field is the
given (language, value) pairs. -/
def prefDoc (pairs : List (String × String)) : Json :=
  .obj [("@graph", .arr [
    .obj [("@id", .str "c1"),
          ("@type", .str SKOS_CONCEPT),
          (SKOS_PREF_LABEL, .arr (pairs.map mkLabel))]])]

/-- The pure fold the prefLabel loop performs on well-formed
string-valued pairs: keep a pair only when language and value are both
nonempty (truthy), later same-language pairs overwriting earlier. -/
def prefFold (pairs : List (String × String)) : List (JKey × Json) :=
  pairs.foldl
    (fun d p => if p.1 ≠ "" ∧ p.2 ≠ "" then dictInsert d (.kstr p.1) (.str p.2) else d) []

/-- A label element the loader's guard silently drops: a dict whose
`@language` or `@value` is missing or falsy. -/
def labelDropped : Json → Bool
  | .obj kvs => !(pyTruthy ((objLookup kvs "@language").getD .null) &&
                  pyTruthy ((objLookup kvs "@value").getD .null))
  | _ => false

/-- A label element whose `@language` and `@value` fields, when present,
are JSON strings. -/
def labelStringTyped (lab : Json) : Prop :=
  ∀ kvs, lab = Json.obj kvs →
    (∀ j, objLookup kvs "@language" = some j → ∃ s, j = Json.str s) ∧
    (∀ j, objLookup kvs "@value" = some j → ∃ s, j = Json.str s)

/-- A single-Concept document whose preferred-label pair carries a
*numeric* (truthy, hashable, non-string) language tag. -/
def cexDoc9 : Json :=
  .obj [("@graph", .arr [
    .obj [("@id", .str "c1"),
          ("@type", .str SKOS_CONCEPT),
          (SKOS_PREF_LABEL, .arr [.obj [("@language", .num 1), ("@value", .str "x")]])]])]

/-! ## Lemmas on the search-index builder -/

theorem indexFor_idxAppend (idx : List (String × List (String × String)))
    (l : String) (e : String × String) (lang : String) :
    indexFor (idxAppend idx l e) lang =
      if lang = l then indexFor idx lang ++ [e] else indexFor idx lang := by
  induction idx with
  | nil =>
    by_cases h : lang = l
    · simp [idxAppend, indexFor, h]
    · simp [idxAppend, indexFor, h, Ne.symm h]
  | cons p rest ih =>
    by_cases hpl : p.1 = l
    · by_cases hlang : lang = l
      · simp [idxAppend, indexFor, hpl, hlang]
      · have hne : ¬ p.1 = lang := fun hh => hlang (hh ▸ hpl.symm ▸ rfl)
        simp [idxAppend, indexFor, hpl, hlang, hne, Ne.symm hlang]
    · by_cases hplang : p.1 = lang
      · have hne : ¬ lang = l := fun hh => hpl (hplang.symm ▸ hh.symm ▸ rfl)
        simp [idxAppend, indexFor, hpl, hplang, hne]
      · simp [idxAppend, indexFor, hpl, hplang, ih]

theorem indexFor_prefFold (ps : List (String × String)) (cid : String)
    (idx : List (String × List (String × String))) (lang : String) :
    indexFor (ps.foldl (fun a p => idxAppend a p.1 (p.2.toLower, cid)) idx) lang =
      indexFor idx lang ++
        (ps.filter (fun p => p.1 = lang)).map (fun p => (p.2.toLower, cid)) := by
  induction ps generalizing idx with
  | nil => simp
  | cons p ps ih =>
    by_cases h : p.1 = lang
    · simp [List.foldl_cons, ih, indexFor_idxAppend, h]
    · have : ¬ lang = p.1 := fun hh => h hh.symm
      simp [List.foldl_cons, ih, indexFor_idxAppend, h, this]

theorem indexFor_altInner (ls : List String) (k cid : String)
    (idx : List (String × List (String × String))) (lang : String) :
    indexFor (ls.foldl (fun a2 label => idxAppend a2 k (label.toLower, cid)) idx) lang =
      indexFor idx lang ++
        (if k = lang then ls.map (fun l => (l.toLower, cid)) else []) := by
  induction ls generalizing idx with
  | nil => simp
  | cons l ls ih =>
    by_cases h : k = lang
    · subst h
      simp [List.foldl_cons, ih, indexFor_idxAppend, List.append_assoc]
    · simp [List.foldl_cons, ih, indexFor_idxAppend, h, Ne.symm h]

theorem indexFor_altFold (as : List (String × List String)) (cid : String)
    (idx : List (String × List (String × String))) (lang : String) :
    indexFor (as.foldl
        (fun a p => p.2.foldl (fun a2 label => idxAppend a2 p.1 (label.toLower, cid)) a)
        idx) lang =
      indexFor idx lang ++
        (as.filter (fun p => p.1 = lang)).flatMap
          (fun p => p.2.map (fun l => (l.toLower, cid))) := by
  induction as generalizing idx with
  | nil => simp
  | cons p as ih =>
    by_cases h : p.1 = lang
    · simp [List.foldl_cons, ih, indexFor_altInner, h]
    · simp [List.foldl_cons, ih, indexFor_altInner, h]

theorem indexFor_buildAux (store : Store)
    (idx : List (String × List (String × String))) (lang : String) :
    indexFor (store.foldl
        (fun search_index kv =>
          let idx1 := kv.2.prefLabels.foldl
            (fun a p => idxAppend a p.1 (p.2.toLower, kv.1)) search_index
          kv.2.altLabels.foldl
            (fun a p => p.2.foldl (fun a2 label => idxAppend a2 p.1 (label.toLower, kv.1)) a)
            idx1)
        idx) lang =
      indexFor idx lang ++ postingSpec store lang := by
  induction store generalizing idx with
  | nil => simp [postingSpec]
  | cons kv store ih =>
    simp only [List.foldl_cons, ih, indexFor_altFold, indexFor_prefFold, postingSpec,
      List.flatMap_cons, List.append_assoc]

/-- C8: for every store, `build_search_index` is a pure function whose
per-language posting list consists, for each concept in store-iteration
order, of one `(lowercase(label), conceptId)` entry per prefLabels pair
of that language followed by one such entry per altLabels element of
that language in list order, with no deduplication; the empty store
yields the empty index. -/
theorem c8_build_search_index (store : Store) (lang : String) :
    indexFor (build_search_index store) lang = postingSpec store lang ∧
      build_search_index [] = [] := by
  constructor
  · have := indexFor_buildAux store [] lang
    simpa [build_search_index, indexFor] using this
  · rfl

theorem indexFor_build (store : Store) (lang : String) :
    indexFor (build_search_index store) lang = postingSpec store lang := by
  have h := indexFor_buildAux store [] lang
  simpa [build_search_index, indexFor] using h

theorem mem_searchMatches (entries : List (String × String)) (query : String) (c : String) :
    c ∈ searchMatches entries query ↔
      ∃ e ∈ entries, e.2 = c ∧ containsSub query e.1 = true := by
  have haux : ∀ (es : List (String × String)) (s : Finset String),
      (c ∈ es.foldl (fun acc e => if containsSub query e.1 then insert e.2 acc else acc) s ↔
        c ∈ s ∨ ∃ e ∈ es, e.2 = c ∧ containsSub query e.1 = true) := by
    intro es
    induction es with
    | nil => simp
    | cons e es ih =>
      intro s
      by_cases h : containsSub query e.1
      · simp only [List.foldl_cons, h, if_true, ih, Finset.mem_insert, List.mem_cons]
        constructor
        · rintro ((rfl | hs) | hex)
          · exact Or.inr ⟨e, Or.inl rfl, rfl, h⟩
          · exact Or.inl hs
          · obtain ⟨e2, he2, hp⟩ := hex
            exact Or.inr ⟨e2, Or.inr he2, hp⟩
        · rintro (hs | ⟨e2, (rfl | he2), hp⟩)
          · exact Or.inl (Or.inr hs)
          · exact Or.inl (Or.inl hp.1.symm)
          · exact Or.inr ⟨e2, he2, hp⟩
      · simp only [List.foldl_cons, h, if_false, ih, List.mem_cons]
        constructor
        · rintro (hs | ⟨e2, he2, hp⟩)
          · exact Or.inl hs
          · exact Or.inr ⟨e2, Or.inr he2, hp⟩
        · rintro (hs | ⟨e2, (rfl | he2), hp⟩)
          · exact Or.inl hs
          · exact absurd hp.2 (by simpa using h)
          · exact Or.inr ⟨e2, he2, hp⟩
  simpa [searchMatches] using haux entries ∅

theorem posting_snd_key {store : Store} {lang lbl c : String}
    (h : (lbl, c) ∈ postingSpec store lang) : ∃ p ∈ store, p.1 = c := by
  simp only [postingSpec, List.mem_flatMap, List.mem_append, List.mem_map,
    List.mem_filter, List.mem_flatMap] at h
  obtain ⟨kv, hkv, hcase⟩ := h
  refine ⟨kv, hkv, ?_⟩
  rcases hcase with ⟨p, _, hpe⟩ | ⟨p, _, l0, _, hpe⟩
  · exact congrArg Prod.snd hpe
  · exact congrArg Prod.snd hpe

theorem lookupStore_mem {store : Store} {c : String} {r : ConceptRecord}
    (h : lookupStore store c = some r) : (c, r) ∈ store := by
  induction store with
  | nil => simp [lookupStore] at h
  | cons p rest ih =>
    obtain ⟨p1, p2⟩ := p
    by_cases hp : p1 = c
    · subst hp
      simp only [lookupStore, if_pos] at h
      cases h
      exact List.mem_cons_self _ _
    · simp only [lookupStore, hp, if_neg, ite_false] at h
      exact List.mem_cons_of_mem _ (ih h)

theorem lookupStore_isSome_of_key {store : Store} {c : String}
    (h : ∃ p ∈ store, p.1 = c) : ∃ r, lookupStore store c = some r := by
  induction store with
  | nil => simp at h
  | cons p rest ih =>
    by_cases hp : p.1 = c
    · exact ⟨p.2, by simp [lookupStore, hp]⟩
    · obtain ⟨q, hq, hq1⟩ := h
      rcases List.mem_cons.mp hq with rfl | hq2
      · exact absurd hq1 hp
      · obtain ⟨r, hr⟩ := ih ⟨q, hq2, hq1⟩
        exact ⟨r, by simp [lookupStore, hp, hr]⟩

theorem resultsMap (store : Store) (hid : ∀ p ∈ store, p.2.id = p.1) (l : List String) :
    (l.filterMap (fun cid => (lookupStore store cid).map format_topic_for_response)).map
        (fun it => it.local_identifier) =
      l.filter (fun cid => (lookupStore store cid).isSome) := by
  induction l with
  | nil => simp
  | cons c l ih =>
    cases hc : lookupStore store c with
    | none => simp [hc, ih]
    | some r =>
      have hcr : r.id = c := hid (c, r) (lookupStore_mem hc)
      simp [hc, ih, format_topic_for_response, hcr]

/-- C1: for every store (with the loader's key/id consistency) and every
query accepted by the current-profile endpoint, the result list of
`topic_result` contains an item for a concept id iff the lowercased term
is a substring of at least one indexed label entry for that concept in
the requested language; each matching id appears exactly once; and the
items are in ascending lexicographic order of concept identifier. -/
theorem c1_topic_result_matching (store : Store)
    (filter search_term language_code : String)
    (hid : ∀ p ∈ store, p.2.id = p.1)
    (hp : parse_filter filter = .ok (search_term, language_code)) :
    ∃ resp, topic_result store filter = .ok resp ∧
      (∀ c : String,
        (∃ item ∈ resp.results, item.local_identifier = c) ↔
          (∃ lbl : String,
            (lbl, c) ∈ indexFor (build_search_index store) language_code ∧
              containsSub search_term.toLower lbl = true)) ∧
      (resp.results.map (fun it => it.local_identifier)).Nodup ∧
      List.Pairwise (· ≤ ·) (resp.results.map (fun it => it.local_identifier)) := by
  have hres : topic_result store filter = .ok (searchResults store search_term language_code) := by
    simp [topic_result, hp]
  have hbody : (searchResults store search_term language_code).results =
      ((searchMatches (indexFor (build_search_index store) language_code)
          search_term.toLower).sort (· ≤ ·)).filterMap
        (fun concept_id => (lookupStore store concept_id).map format_topic_for_response) := rfl
  have hmap := resultsMap store hid
    ((searchMatches (indexFor (build_search_index store) language_code)
        search_term.toLower).sort (· ≤ ·))
  refine ⟨searchResults store search_term language_code, hres, ?_, ?_, ?_⟩
  · intro c
    constructor
    · rintro ⟨item, hitem, hide⟩
      have hc : c ∈ (searchResults store search_term language_code).results.map
          (fun it => it.local_identifier) := List.mem_map.mpr ⟨item, hitem, hide⟩
      rw [hbody, hmap] at hc
      have hsort := (List.mem_filter.mp hc).1
      have hm : c ∈ searchMatches (indexFor (build_search_index store) language_code)
          search_term.toLower := (Finset.mem_sort _).mp hsort
      obtain ⟨e, he, he2, hesub⟩ := (mem_searchMatches _ _ _).mp hm
      exact ⟨e.1, by rwa [show (e.1, c) = e from Prod.ext rfl he2.symm], hesub⟩
    · rintro ⟨lbl, hmem, hsub⟩
      have hm : c ∈ searchMatches (indexFor (build_search_index store) language_code)
          search_term.toLower := (mem_searchMatches _ _ _).mpr ⟨(lbl, c), hmem, rfl, hsub⟩
      have hkey : ∃ p ∈ store, p.1 = c := by
        rw [indexFor_build] at hmem
        exact posting_snd_key hmem
      obtain ⟨r, hr⟩ := lookupStore_isSome_of_key hkey
      have hcr : r.id = c := hid (c, r) (lookupStore_mem hr)
      refine ⟨format_topic_for_response r, ?_, hcr⟩
      rw [hbody]
      exact List.mem_filterMap.mpr ⟨c, (Finset.mem_sort _).mpr hm, by simp [hr]⟩
  · rw [hbody, hmap]
    exact (Finset.sort_nodup _ _).filter _
  · rw [hbody, hmap]
    exact (List.Pairwise.sublist (List.filter_sublist _) (Finset.sort_sorted _ _))

/-- Closed instantiation of `c1_topic_result_matching`: querying the
one-concept demo store for `pov` in English. -/
theorem c1_topic_result_matching_witness :
    ∃ resp, topic_result wStore1 "cf.search.labels:pov" = .ok resp ∧
      (∀ c : String,
        (∃ item ∈ resp.results, item.local_identifier = c) ↔
          (∃ lbl : String,
            (lbl, c) ∈ indexFor (build_search_index wStore1) "en" ∧
              containsSub "pov".toLower lbl = true)) ∧
      (resp.results.map (fun it => it.local_identifier)).Nodup ∧
      List.Pairwise (· ≤ ·) (resp.results.map (fun it => it.local_identifier)) := by
  have h := c1_topic_result_matching wStore1 "cf.search.labels:pov" "pov" "en"
    (by decide) (by rfl)
  simpa using h

/-! ## Lemmas on the parent-hierarchy walk -/

theorem get_concept_mem {store : AppStore} {c : String} {r : AppRecord}
    (h : get_concept_by_id store c = some r) : (c, r) ∈ store := by
  induction store with
  | nil => simp [get_concept_by_id] at h
  | cons p rest ih =>
    obtain ⟨p1, p2⟩ := p
    by_cases hp : p1 = c
    · subst hp
      simp only [get_concept_by_id, if_pos] at h
      cases h
      exact List.mem_cons_self _ _
    · simp only [get_concept_by_id, hp, if_neg, ite_false] at h
      exact List.mem_cons_of_mem _ (ih h)

theorem get_concept_isSome_of_key {store : AppStore} {c : String}
    (h : ∃ p ∈ store, p.1 = c) : ∃ r, get_concept_by_id store c = some r := by
  induction store with
  | nil => simp at h
  | cons p rest ih =>
    by_cases hp : p.1 = c
    · exact ⟨p.2, by simp [get_concept_by_id, hp]⟩
    · obtain ⟨q, hq, hq1⟩ := h
      rcases List.mem_cons.mp hq with rfl | hq2
      · exact absurd hq1 hp
      · obtain ⟨r, hr⟩ := ih ⟨q, hq2, hq1⟩
        exact ⟨r, by simp [get_concept_by_id, hp, hr]⟩

theorem gph_go_eq (store : AppStore) :
    ∀ (n : Nat) (cur : Option String) (h : Finset String),
      gph_go store n cur h = h ∪ (gph_visit store n cur).toFinset := by
  intro n
  induction n with
  | zero => intro cur h; simp [gph_go, gph_visit]
  | succ n ih =>
    intro cur h
    cases cur with
    | none => simp [gph_go, gph_visit]
    | some cid =>
      by_cases hc : cid = ""
      · simp [gph_go, gph_visit, hc]
      · cases hl : get_concept_by_id store cid with
        | none => simp [gph_go, gph_visit, hc, hl]
        | some concept =>
          simp only [gph_go, gph_visit, hc, hl, ite_false]
          rw [ih]
          ext a
          simp only [Finset.mem_union, Finset.mem_insert, List.toFinset_cons,
            List.mem_toFinset]
          tauto

theorem gph_visit_length (store : AppStore) :
    ∀ (n : Nat) (cur : Option String), (gph_visit store n cur).length ≤ n := by
  intro n
  induction n with
  | zero => intro cur; simp [gph_visit]
  | succ n ih =>
    intro cur
    cases cur with
    | none => simp [gph_visit]
    | some cid =>
      by_cases hc : cid = ""
      · simp [gph_visit, hc]
      · cases hl : get_concept_by_id store cid with
        | none => simp [gph_visit, hc, hl]
        | some concept =>
          simp only [gph_visit, hc, hl, ite_false, List.length_cons]
          exact Nat.succ_le_succ (ih _)

theorem gph_visit_head (store : AppStore) {n : Nat} {cur : Option String}
    {x : String} {l : List String} (h : gph_visit store n cur = x :: l) :
    cur = some x := by
  cases n with
  | zero => simp [gph_visit] at h
  | succ n =>
    cases cur with
    | none => simp [gph_visit] at h
    | some cid =>
      by_cases hc : cid = ""
      · simp [gph_visit, hc] at h
      · cases hl : get_concept_by_id store cid with
        | none => simp [gph_visit, hc, hl] at h
        | some concept =>
          simp only [gph_visit, hc, hl, ite_false, List.cons.injEq] at h
          rw [h.1]

theorem gph_visit_chain (store : AppStore) :
    ∀ (n : Nat) (cur : Option String),
      List.Chain' (fun a b => broaderLink store a = some b) (gph_visit store n cur) := by
  intro n
  induction n with
  | zero => intro cur; simp [gph_visit]
  | succ n ih =>
    intro cur
    cases cur with
    | none => simp [gph_visit]
    | some cid =>
      by_cases hc : cid = ""
      · simp [gph_visit, hc]
      · cases hl : get_concept_by_id store cid with
        | none => simp [gph_visit, hc, hl]
        | some concept =>
          simp only [gph_visit, hc, hl, ite_false]
          rw [List.chain'_cons']
          refine ⟨?_, ih _⟩
          intro b hb
          cases hv : gph_visit store n concept.broader with
          | nil => rw [hv] at hb; simp at hb
          | cons x l =>
            rw [hv] at hb
            simp only [List.head?_cons, Option.mem_def, Option.some.injEq] at hb
            subst hb
            have hbr := gph_visit_head store hv
            simp [broaderLink, hl, hbr]

theorem gph_visit_keys (store : AppStore) :
    ∀ (n : Nat) (cur : Option String) (x : String),
      x ∈ gph_visit store n cur → ∃ p ∈ store, p.1 = x := by
  intro n
  induction n with
  | zero => intro cur x hx; simp [gph_visit] at hx
  | succ n ih =>
    intro cur x hx
    cases cur with
    | none => simp [gph_visit] at hx
    | some cid =>
      by_cases hc : cid = ""
      · simp [gph_visit, hc] at hx
      · cases hl : get_concept_by_id store cid with
        | none => simp [gph_visit, hc, hl] at hx
        | some concept =>
          simp only [gph_visit, hc, hl, ite_false, List.mem_cons] at hx
          rcases hx with rfl | hx
          · exact ⟨(x, concept), get_concept_mem hl, rfl⟩
          · exact ih _ x hx

/-- C2 (amended): for every store of the legacy variant — cyclic or
dangling `broader` chains included — and every starting id,
`get_parent_hierarchy` collects at most 20 ids; the collected set is
exactly the ids of the silently-terminated walk `gph_visit` along
`broader` links (so the walk stops, with no error, at a missing id, a
falsy id, or the 20-hop cap); every collected id is a store key; and the
starting id itself is collected whenever it is *nonempty* and present in
the store (an empty-string starting id is falsy in the loop's guard and
yields the empty set). -/
theorem c2_get_parent_hierarchy (store : AppStore) (concept_id : String) :
    (get_parent_hierarchy store concept_id).card ≤ 20 ∧
    get_parent_hierarchy store concept_id = (gph_visit store 20 (some concept_id)).toFinset ∧
    List.Chain' (fun a b => broaderLink store a = some b)
      (gph_visit store 20 (some concept_id)) ∧
    (∀ x ∈ get_parent_hierarchy store concept_id, ∃ p ∈ store, p.1 = x) ∧
    (concept_id ≠ "" → (∃ p ∈ store, p.1 = concept_id) →
      concept_id ∈ get_parent_hierarchy store concept_id) := by
  have heq : get_parent_hierarchy store concept_id =
      (gph_visit store 20 (some concept_id)).toFinset := by
    have h := gph_go_eq store 20 (some concept_id) ∅
    simpa [get_parent_hierarchy] using h
  refine ⟨?_, heq, gph_visit_chain store 20 _, ?_, ?_⟩
  · rw [heq]
    exact le_trans (List.toFinset_card_le _) (gph_visit_length store 20 _)
  · intro x hx
    rw [heq] at hx
    exact gph_visit_keys store 20 _ x (List.mem_toFinset.mp hx)
  · intro hne hkey
    obtain ⟨r, hr⟩ := get_concept_isSome_of_key hkey
    rw [heq, show (20 : Nat) = 19 + 1 from rfl]
    simp [gph_visit, hne, hr]

/-- C2 counterexample: the claim as stated fails on a store whose only
key is the empty string (producible by the loader from a node with
`"@id": ""`): the empty id is present in the store, yet
`get_parent_hierarchy` does not include it — the loop's
`if not current_id: break` fires on the falsy empty string and the
function returns the empty set. -/
theorem c2_counterexample :
    (∃ p ∈ cexStore2, p.1 = "") ∧ "" ∉ get_parent_hierarchy cexStore2 "" := by
  constructor
  · exact ⟨("", { id := "", prefLabel := "", altLabel := [], broader := none }),
      by simp [cexStore2], rfl⟩
  · decide

/-- Closed instantiation of `c2_get_parent_hierarchy` at a concrete
store and present, nonempty starting id. -/
theorem c2_get_parent_hierarchy_witness :
    "A" ∈ get_parent_hierarchy wStore2 "A" ∧
      (get_parent_hierarchy wStore2 "A").card ≤ 20 :=
  ⟨(c2_get_parent_hierarchy wStore2 "A").2.2.2.2 (by decide)
      ⟨("A", { id := "A", prefLabel := "Alpha", altLabel := [], broader := some "B" }),
        by simp [wStore2], rfl⟩,
    (c2_get_parent_hierarchy wStore2 "A").1⟩

/-- C10: for every query accepted by the legacy full-hierarchy endpoint
(length at least 3), the returned `@graph` list is non-empty and its
first element is the DataSource descriptor node; with zero matching
concepts the `@graph` contains exactly that one node. -/
theorem c10_autocomplete_graph (store : AppStore) (q : String) (hq : 3 ≤ q.length) :
    autocomplete_graph store q ≠ [] ∧
    (autocomplete_graph store q).head? = some get_data_source ∧
    (autoMatches store q.toLower = ∅ → autocomplete_graph store q = [get_data_source]) := by
  refine ⟨by simp [autocomplete_graph], by simp [autocomplete_graph], ?_⟩
  intro hm
  simp [autocomplete_graph, hm]

/-- Closed instantiation of `c10_autocomplete_graph`: a query with no
match on the two-concept demo store. -/
theorem c10_autocomplete_graph_witness :
    autocomplete_graph wStore2 "xyz" ≠ [] ∧
    (autocomplete_graph wStore2 "xyz").head? = some get_data_source ∧
    (autoMatches wStore2 "xyz".toLower = ∅ →
      autocomplete_graph wStore2 "xyz" = [get_data_source]) :=
  c10_autocomplete_graph wStore2 "xyz" (by decide)

/-- C7 (amended): for *every* record rendered by the full-hierarchy
profile — with or without a parent — the emitted topic node's global
`@id` is the fixed base URI concatenated with the percent-encoding of
the local identifier; and when the record's `broader` field holds a
*nonempty* parent id the node carries a `parent_topic` reference naming
only the parent's local identifier (not a minted global id).  A record
whose `broader` is the empty string is falsy under
`if concept_data.get("broader"):` and gets no parent reference at
all. -/
theorem c7_to_skgif_topic (r : AppRecord) :
    jGet (to_skgif_topic r) "@id" = some (.str (SKG_IF_BASE_URL ++ pyQuote r.id)) ∧
    (∀ parent, r.broader = some parent → parent ≠ "" →
      jGet (to_skgif_topic r) "parent_topic" =
        some (.obj [("@type", .str "Topic"), ("local_identifier", .str parent)])) := by
  constructor
  · unfold to_skgif_topic jGet
    cases hb : r.broader with
    | none => by_cases ha : r.altLabel.isEmpty <;> simp [ha, objLookup]
    | some parent =>
      by_cases hp : parent = "" <;> by_cases ha : r.altLabel.isEmpty <;>
        simp [ha, hp, objLookup]
  · intro parent hb hp
    unfold to_skgif_topic jGet
    rw [hb]
    by_cases ha : r.altLabel.isEmpty <;> simp [ha, hp, objLookup]

/-- C7 counterexample: the claim as stated fails on a record whose
`broader` field is set to the empty string (producible by the loader
from `broader: [{"@id": ""}]`): it has a broader parent recorded, yet
the emitted node carries no `parent_topic` reference. -/
theorem c7_counterexample :
    cexRec7.broader = some "" ∧
      jsonHasKey (to_skgif_topic cexRec7) "parent_topic" = false :=
  ⟨rfl, rfl⟩

/-- Closed instantiation of `c7_to_skgif_topic`: both clauses at a
record with a space in its id and a nonempty parent, and the minting
clause at a parentless record. -/
theorem c7_to_skgif_topic_witness :
    jGet (to_skgif_topic wRec7) "@id" =
      some (.str (SKG_IF_BASE_URL ++ pyQuote wRec7.id)) ∧
    jGet (to_skgif_topic wRec7) "parent_topic" =
      some (.obj [("@type", .str "Topic"), ("local_identifier", .str "P1")]) ∧
    jGet (to_skgif_topic
        { id := "B", prefLabel := "Beta", altLabel := [], broader := none }) "@id" =
      some (.str (SKG_IF_BASE_URL ++ pyQuote "B")) :=
  ⟨(c7_to_skgif_topic wRec7).1,
    (c7_to_skgif_topic wRec7).2 "P1" rfl (by decide),
    (c7_to_skgif_topic
      { id := "B", prefLabel := "Beta", altLabel := [], broader := none }).1⟩

/-- C4 (amended): for every store and topic id, `topic_single` fails
with HTTP 404 iff the id is absent from the store; a present id yields
exactly one graph item carrying the concept's local identifier, the
fixed entity-type tag and the full multilingual preferred-label map —
but *no* external-identifiers placeholder: the `identifiers` entry is
commented out in this endpoint (src/server.py lines 218-223), unlike the
flat-result items of `format_topic_for_response`. -/
theorem c4_topic_single (store : Store) (topic_id : String) :
    ((∃ e, topic_single store topic_id = .error e ∧ e.1 = 404) ↔
      lookupStore store topic_id = none) ∧
    (∀ r, lookupStore store topic_id = some r →
      topic_single store topic_id = .ok (.obj
        [("@context", .arr [.str SKG_IF_CONTEXT_URL, .obj [("@base", .str SKG_IF_BASE_URL)]]),
         ("@graph", .arr [topicSingleItem r])]) ∧
      topicSingleItem r = .obj [("local_identifier", .str r.id),
        ("entity_type", .str "topic"), ("labels", labelsJson r.prefLabels)] ∧
      jsonHasKey (topicSingleItem r) "identifiers" = false) := by
  constructor
  · cases hl : lookupStore store topic_id with
    | none => simp [topic_single, hl]
    | some r => simp [topic_single, hl]
  · intro r hr
    exact ⟨by simp [topic_single, hr], rfl, rfl⟩

/-- C4 counterexample: the claim as stated fails on a present id in the
demo store — the single returned item has no `identifiers` key, so it
does not carry the empty external-identifiers placeholder the
flat-result profile items have. -/
theorem c4_counterexample :
    topic_single wStore1 "uri:1" = .ok (.obj
      [("@context", .arr [.str SKG_IF_CONTEXT_URL, .obj [("@base", .str SKG_IF_BASE_URL)]]),
       ("@graph", .arr [.obj [("local_identifier", .str "uri:1"),
         ("entity_type", .str "topic"),
         ("labels", .obj [("en", .str "Poverty")])]])]) ∧
    jsonHasKey (topicSingleItem wRecord1) "identifiers" = false ∧
    (format_topic_for_response wRecord1).identifiers = [] :=
  ⟨rfl, rfl, rfl⟩

/-- Closed instantiation of `c4_topic_single` at the demo store, both on
the present id and the key-set fact. -/
theorem c4_topic_single_witness :
    topic_single wStore1 "uri:1" = .ok (.obj
      [("@context", .arr [.str SKG_IF_CONTEXT_URL, .obj [("@base", .str SKG_IF_BASE_URL)]]),
       ("@graph", .arr [topicSingleItem wRecord1])]) ∧
    jsonHasKey (topicSingleItem wRecord1) "identifiers" = false := by
  have h := (c4_topic_single wStore1 "uri:1").2 wRecord1 (by rfl)
  exact ⟨h.1, h.2.2⟩

theorem parseParts_malformed :
    ∀ (parts : List (List Char)) (acc : List (List Char × List Char)),
      (∃ part ∈ parts, splitOnce ':' part = none) →
        parseParts parts acc = .error malformedFilterError := by
  intro parts
  induction parts with
  | nil => intro acc h; simp at h
  | cons part rest ih =>
    intro acc h
    cases hs : splitOnce ':' part with
    | none => simp [parseParts, hs]
    | some kv =>
      obtain ⟨k, v⟩ := kv
      obtain ⟨p2, hp2, hnone⟩ := h
      rcases List.mem_cons.mp hp2 with rfl | hmem
      · exact absurd hnone (by simp [hs])
      · simp only [parseParts, hs]
        exact ih _ ⟨p2, hmem, hnone⟩

/-- C6: for every filter string given to the current-profile endpoint
`topic_result`: a filter with a comma-separated part lacking a colon, or
one whose (stripped) `cf.search.labels` value is missing or shorter than
3 characters, or one whose `cf.search.language` value fails
`re.match("^[a-z]{2}$", ...)`, yields an HTTP 422 with a structured
validation-error body locating the `filter` query field; when
`cf.search.language` is absent the language defaults to `en` and the
query proceeds. -/
theorem c6_topic_result_validation (store : Store) (filter : String) :
    ((∃ part ∈ splitOnChar ',' filter.data, splitOnce ':' part = none) →
      ∃ e, topic_result store filter = .error e ∧
        e.status = 422 ∧ e.loc = ["query", "filter"]) ∧
    (∀ params, parseParts (splitOnChar ',' filter.data) [] = .ok params →
      ((paramsGet params "cf.search.labels".data = none ∨
          (∃ t, paramsGet params "cf.search.labels".data = some t ∧ t.length < 3)) →
        ∃ e, topic_result store filter = .error e ∧
          e.status = 422 ∧ e.loc = ["query", "filter"]) ∧
      (∀ l, paramsGet params "cf.search.language".data = some l → matchLang l = false →
        ∃ e, topic_result store filter = .error e ∧
          e.status = 422 ∧ e.loc = ["query", "filter"]) ∧
      (∀ t, paramsGet params "cf.search.labels".data = some t → 3 ≤ t.length →
        paramsGet params "cf.search.language".data = none →
        topic_result store filter = .ok (searchResults store (String.mk t) "en"))) := by
  constructor
  · intro h
    have hE := parseParts_malformed (splitOnChar ',' filter.data) [] h
    exact ⟨malformedFilterError, by simp [topic_result, parse_filter, hE], rfl, rfl⟩
  · intro params hpp
    refine ⟨?_, ?_, ?_⟩
    · rintro (hnone | ⟨t, ht, htlen⟩)
      · exact ⟨missingLabelsError, by simp [topic_result, parse_filter, hpp, hnone], rfl, rfl⟩
      · exact ⟨missingLabelsError, by simp [topic_result, parse_filter, hpp, ht, htlen], rfl, rfl⟩
    · intro l hl hlang
      cases hlb : paramsGet params "cf.search.labels".data with
      | none =>
        exact ⟨missingLabelsError, by simp [topic_result, parse_filter, hpp, hlb], rfl, rfl⟩
      | some t =>
        by_cases htlen : t.length < 3
        · exact ⟨missingLabelsError,
            by simp [topic_result, parse_filter, hpp, hlb, htlen], rfl, rfl⟩
        · exact ⟨badLanguageError,
            by simp [topic_result, parse_filter, hpp, hlb, htlen, hl, hlang], rfl, rfl⟩
    · intro t ht htlen hlang
      have htlt : ¬ t.length < 3 := by omega
      simp [topic_result, parse_filter, hpp, ht, htlt, hlang, matchLang]

/-- Closed instantiation of `c6_topic_result_validation`: a filter with
labels only proceeds with the default language `en`. -/
theorem c6_topic_result_validation_witness :
    topic_result wStore1 "cf.search.labels:abc" =
      .ok (searchResults wStore1 (String.mk "abc".data) "en") := by
  have h := ((c6_topic_result_validation wStore1 "cf.search.labels:abc").2
      [("cf.search.labels".data, "abc".data)] (by rfl)).2.2
  exact h "abc".data (by rfl) (by decide) (by rfl)

/-- C3 (amended): `load_elsst_data` returns an empty store (after
logging) on a missing file and on JSON that fails to parse, and on any
parsed top level that is neither an object with an `@graph` key nor a
list; however it is *not* exception-free: an unreadable encoding raises
`UnicodeDecodeError` through the `except` clauses, and an object or list
top level with ill-typed content (e.g. a list whose element is a number)
raises a `TypeError` to the caller. -/
theorem c3_load_elsst_data :
    load_elsst_data .missingFile = .ok [] ∧
    load_elsst_data .badJson = .ok [] ∧
    (∀ kvs, hasKey kvs "@graph" = false →
      load_elsst_data (.parsed (.obj kvs)) = .ok []) ∧
    (∀ j : Json, (∀ kvs, j ≠ .obj kvs) → (∀ l, j ≠ .arr l) →
      load_elsst_data (.parsed j) = .ok []) := by
  refine ⟨rfl, rfl, ?_, ?_⟩
  · intro kvs h
    simp [load_elsst_data, h]
  · intro j hobj harr
    cases j with
    | obj kvs => exact absurd rfl (hobj kvs)
    | arr l => exact absurd rfl (harr l)
    | null => rfl
    | bool b => rfl
    | num n => rfl
    | str s => rfl

/-- C3 counterexample: the claim as stated (never raises; any non-graph
top-level shape yields an empty store) fails concretely — the parsed
top-level list `[1]` reaches `'@graph' in 1` and raises `TypeError`, and
a file that is not valid UTF-8 raises `UnicodeDecodeError`, which is not
caught by the `except FileNotFoundError` / `except json.JSONDecodeError`
clauses. -/
theorem c3_counterexample :
    load_elsst_data (.parsed (.arr [.num 1])) = .error .typeError ∧
    load_elsst_data .badEncoding = .error .unicodeDecodeError :=
  ⟨rfl, rfl⟩

/-- Closed instantiation of `c3_load_elsst_data` at the `null` top
level. -/
theorem c3_load_elsst_data_witness :
    load_elsst_data .missingFile = .ok [] ∧
    load_elsst_data (.parsed .null) = .ok [] :=
  ⟨(c3_load_elsst_data).1,
    (c3_load_elsst_data).2.2.2 .null (fun _ h => Json.noConfusion h)
      (fun _ h => Json.noConfusion h)⟩

/-! ## Lemmas on the prefLabel fold (dynamic layer) -/

theorem dictLookup_dictInsert (d : List (JKey × Json)) (k : JKey) (v : Json) (k' : JKey) :
    dictLookup (dictInsert d k v) k' = if k' = k then some v else dictLookup d k' := by
  induction d with
  | nil =>
    by_cases h : k' = k
    · simp [dictInsert, dictLookup, h]
    · simp [dictInsert, dictLookup, h, Ne.symm h]
  | cons p rest ih =>
    by_cases hpk : p.1 = k
    · by_cases h : k' = k
      · simp [dictInsert, dictLookup, hpk, h]
      · have hne : ¬ p.1 = k' := fun hh => h (hh ▸ hpk.symm ▸ rfl)
        simp [dictInsert, dictLookup, hpk, h, hne, Ne.symm h]
    · by_cases hpk' : p.1 = k'
      · have hne : ¬ k' = k := fun hh => hpk (hpk'.symm ▸ hh.symm ▸ rfl)
        simp [dictInsert, dictLookup, hpk, hpk', hne]
      · simp [dictInsert, dictLookup, hpk, hpk', ih]

theorem dictInsert_keys (d : List (JKey × Json)) (k : JKey) (v : Json) :
    (dictInsert d k v).map Prod.fst =
      if k ∈ d.map Prod.fst then d.map Prod.fst else d.map Prod.fst ++ [k] := by
  induction d with
  | nil => simp [dictInsert]
  | cons p rest ih =>
    by_cases hpk : p.1 = k
    · simp [dictInsert, hpk]
    · simp only [dictInsert, hpk, ite_false, if_neg, List.map_cons, List.mem_cons, ih]
      by_cases hk : k ∈ rest.map Prod.fst <;> simp [hk, Ne.symm hpk]

theorem dictInsert_nodupKeys {d : List (JKey × Json)}
    (h : (d.map Prod.fst).Nodup) (k : JKey) (v : Json) :
    ((dictInsert d k v).map Prod.fst).Nodup := by
  rw [dictInsert_keys]
  by_cases hk : k ∈ d.map Prod.fst
  · simp [hk, h]
  · simp [hk, h, List.nodup_append]

theorem prefFoldAux_nodupKeys (pairs : List (String × String)) :
    ∀ d : List (JKey × Json), (d.map Prod.fst).Nodup →
      ((pairs.foldl
          (fun d p =>
            if p.1 ≠ "" ∧ p.2 ≠ "" then dictInsert d (.kstr p.1) (.str p.2) else d)
          d).map Prod.fst).Nodup := by
  induction pairs with
  | nil => intro d h; simpa using h
  | cons p ps ih =>
    intro d h
    by_cases hp : p.1 ≠ "" ∧ p.2 ≠ ""
    · simpa [hp] using ih _ (dictInsert_nodupKeys h _ _)
    · simpa [hp] using ih _ h

theorem prefFold_nodupKeys (pairs : List (String × String)) :
    ((prefFold pairs).map Prod.fst).Nodup :=
  prefFoldAux_nodupKeys pairs [] (by simp)

theorem extractPrefLabels_strings (pairs : List (String × String)) :
    ∀ acc : List (JKey × Json),
      extractPrefLabels (pairs.map mkLabel) acc =
        .ok (pairs.foldl
          (fun d p =>
            if p.1 ≠ "" ∧ p.2 ≠ "" then dictInsert d (.kstr p.1) (.str p.2) else d)
          acc) := by
  induction pairs with
  | nil => intro acc; rfl
  | cons p ps ih =>
    intro acc
    by_cases h1 : p.1 = "" <;> by_cases h2 : p.2 = "" <;>
      simp [extractPrefLabels, mkLabel, pyGet, objLookup, pyTruthy, Json.toKey?,
        h1, h2, ih]

theorem dictLookup_prefFold (L : String) (hL : L ≠ "") (pairs : List (String × String)) :
    dictLookup (prefFold pairs) (.kstr L) =
      ((pairs.filter (fun p => p.1 = L ∧ p.2 ≠ "")).getLast?).map
        (fun p => Json.str p.2) := by
  induction pairs using List.reverseRecOn with
  | nil => rfl
  | append_singleton l p ih =>
    obtain ⟨a, b⟩ := p
    have hstep : prefFold (l ++ [(a, b)]) =
        (if a ≠ "" ∧ b ≠ "" then dictInsert (prefFold l) (.kstr a) (.str b)
         else prefFold l) := by
      simp [prefFold, List.foldl_append]
    have hfilter : (l ++ [(a, b)]).filter (fun p => p.1 = L ∧ p.2 ≠ "") =
        l.filter (fun p => p.1 = L ∧ p.2 ≠ "") ++
          (if a = L ∧ b ≠ "" then [(a, b)] else []) := by
      simp [List.filter_append, List.filter_singleton]
    rw [hstep, hfilter]
    by_cases hp1 : a = L <;> by_cases hp2 : b = ""
    · subst hp1
      subst hp2
      simp [ih]
    · subst hp1
      simp [hL, hp2, dictLookup_dictInsert, List.getLast?_concat]
    · subst hp2
      simp [hp1, ih]
    · by_cases hp0 : a = ""
      · subst hp0
        simp [hp1, ih]
      · simp [hp0, hp1, hp2, Ne.symm hp1, dictLookup_dictInsert, ih]

theorem load_prefDoc (pairs : List (String × String)) :
    load_elsst_data (.parsed (prefDoc pairs)) =
      .ok [(.kstr "c1", ⟨.str "c1", prefFold pairs, [], .null⟩)] := by
  simp [load_elsst_data, prefDoc, processGraph, processNode, hasKey, objLookup,
    typeContains, jsonEqStr, pyIter, extractAltLabels, extractBroader, Json.toKey?,
    storeInsert, SKOS_CONCEPT, SKOS_PREF_LABEL, SKOS_ALT_LABEL, SKOS_BROADER,
    extractPrefLabels_strings pairs [], prefFold]

/-- C5 (amended): for every input node whose preferred-label field lists
(language, value) string pairs, the loaded record maps a language to
exactly one preferred label (its key list has no duplicates), namely the
value of the last pair for that language whose language and value are
both *truthy* (nonempty): the loop's `if lang and value:` guard silently
skips falsy pairs, so a trailing same-language pair with an empty value
does not overwrite the previously retained one. -/
theorem c5_pref_last_wins (pairs : List (String × String)) (L : String)
    (lastp : String × String) (hL : L ≠ "")
    (hlast : (pairs.filter (fun p => p.1 = L ∧ p.2 ≠ "")).getLast? = some lastp) :
    ∃ rec : RawRecord,
      load_elsst_data (.parsed (prefDoc pairs)) = .ok [(.kstr "c1", rec)] ∧
      (rec.prefLabels.map Prod.fst).Nodup ∧
      dictLookup rec.prefLabels (.kstr L) = some (.str lastp.2) := by
  refine ⟨⟨.str "c1", prefFold pairs, [], .null⟩, load_prefDoc pairs,
    prefFold_nodupKeys pairs, ?_⟩
  rw [show (⟨.str "c1", prefFold pairs, [], .null⟩ : RawRecord).prefLabels =
    prefFold pairs from rfl]
  rw [dictLookup_prefFold L hL pairs, hlast]
  rfl

/-- C5 counterexample: the claim as stated fails when the last pair for
a language has an empty (falsy) value: on pairs
`[("en", "a"), ("en", "")]` the loaded record maps `en` to `"a"`, not to
the value `""` of the last pair seen for `en` in source order. -/
theorem c5_counterexample :
    load_elsst_data (.parsed (prefDoc [("en", "a"), ("en", "")])) =
      .ok [(.kstr "c1", ⟨.str "c1", [(.kstr "en", .str "a")], [], .null⟩)] ∧
    dictLookup [((.kstr "en" : JKey), (.str "a" : Json))] (.kstr "en") =
      some (.str "a") ∧
    (Json.str "a" ≠ Json.str "") :=
  ⟨rfl, rfl, fun h => by injection h with h2; exact absurd h2 (by decide)⟩

/-- Closed instantiation of `c5_pref_last_wins`: two truthy pairs for
`en`, the last one wins. -/
theorem c5_pref_last_wins_witness :
    ∃ rec : RawRecord,
      load_elsst_data (.parsed (prefDoc [("en", "a"), ("en", "b")])) =
        .ok [(.kstr "c1", rec)] ∧
      (rec.prefLabels.map Prod.fst).Nodup ∧
      dictLookup rec.prefLabels (.kstr "en") = some (.str "b") :=
  c5_pref_last_wins [("en", "a"), ("en", "b")] "en" ("en", "b") (by decide) (by rfl)

/-! ## Lemmas on the label guards (dynamic layer) -/

theorem mem_dictInsert {d : List (JKey × Json)} {k : JKey} {v : Json}
    {kv : JKey × Json} (h : kv ∈ dictInsert d k v) : kv ∈ d ∨ kv = (k, v) := by
  induction d with
  | nil => simpa [dictInsert] using h
  | cons p rest ih =>
    by_cases hpk : p.1 = k
    · simp only [dictInsert, hpk, if_pos, List.mem_cons] at h
      rcases h with rfl | h
      · exact Or.inr rfl
      · exact Or.inl (List.mem_cons_of_mem _ h)
    · simp only [dictInsert, hpk, ite_false, if_neg, List.mem_cons] at h
      rcases h with rfl | h
      · exact Or.inl (List.mem_cons_self _ _)
      · rcases ih h with h | h
        · exact Or.inl (List.mem_cons_of_mem _ h)
        · exact Or.inr h

theorem mem_dictAppend {d : List (JKey × List Json)} {k : JKey} {v : Json}
    {kv : JKey × List Json} (h : kv ∈ dictAppend d k v) :
    kv ∈ d ∨ kv = (k, [v]) ∨ ∃ old, (k, old) ∈ d ∧ kv = (k, old ++ [v]) := by
  induction d with
  | nil => simpa [dictAppend] using h
  | cons p rest ih =>
    obtain ⟨p1, p2⟩ := p
    by_cases hpk : p1 = k
    · subst hpk
      rw [show dictAppend ((p1, p2) :: rest) p1 v = (p1, p2 ++ [v]) :: rest from
        by simp [dictAppend]] at h
      rcases List.mem_cons.mp h with rfl | h
      · exact Or.inr (Or.inr ⟨p2, List.mem_cons_self _ _, rfl⟩)
      · exact Or.inl (List.mem_cons_of_mem _ h)
    · simp only [dictAppend, hpk, ite_false, if_neg, List.mem_cons] at h
      rcases h with rfl | h
      · exact Or.inl (List.mem_cons_self _ _)
      · rcases ih h with h | h | ⟨old, ho, he⟩
        · exact Or.inl (List.mem_cons_of_mem _ h)
        · exact Or.inr (Or.inl h)
        · exact Or.inr (Or.inr ⟨old, List.mem_cons_of_mem _ ho, he⟩)

theorem toKey_toJson {j : Json} {k : JKey} (h : j.toKey? = some k) :
    k.toJson = j := by
  cases j <;> simp [Json.toKey?] at h <;> simp [← h, JKey.toJson]

theorem extractPrefLabels_inv (Pk : JKey → Prop) (Pv : Json → Prop) :
    ∀ (labels : List Json),
      (∀ lab ∈ labels, ∀ lang value k,
        pyGet lab "@language" = .ok lang → pyGet lab "@value" = .ok value →
        pyTruthy lang = true → pyTruthy value = true → lang.toKey? = some k →
        Pk k ∧ Pv value) →
      ∀ acc d, extractPrefLabels labels acc = .ok d →
        (∀ kv ∈ acc, Pk kv.1 ∧ Pv kv.2) →
        ∀ kv ∈ d, Pk kv.1 ∧ Pv kv.2 := by
  intro labels
  induction labels with
  | nil =>
    intro _ acc d hd hacc
    simp only [extractPrefLabels, Except.ok.injEq] at hd
    subst hd
    exact hacc
  | cons lab rest ih =>
    intro hstep acc d hd hacc
    have hstep' : ∀ lab2 ∈ rest, ∀ lang value k,
        pyGet lab2 "@language" = .ok lang → pyGet lab2 "@value" = .ok value →
        pyTruthy lang = true → pyTruthy value = true → lang.toKey? = some k →
        Pk k ∧ Pv value :=
      fun lab2 h2 => hstep lab2 (List.mem_cons_of_mem _ h2)
    cases hlg : pyGet lab "@language" with
    | error e => simp [extractPrefLabels, hlg] at hd
    | ok lang =>
      cases hv : pyGet lab "@value" with
      | error e => simp [extractPrefLabels, hlg, hv] at hd
      | ok value =>
        by_cases htr : (pyTruthy lang && pyTruthy value) = true
        · cases hk : lang.toKey? with
          | none => simp [extractPrefLabels, hlg, hv, htr, hk] at hd
          | some k =>
            simp only [extractPrefLabels, hlg, hv, htr, hk, if_pos] at hd
            have htr12 : pyTruthy lang = true ∧ pyTruthy value = true := by
              simpa using htr
            obtain ⟨htr1, htr2⟩ := htr12
            have hP := hstep lab (List.mem_cons_self _ _) lang value k hlg hv htr1 htr2 hk
            refine ih hstep' _ d hd ?_
            intro kv hkv
            rcases mem_dictInsert hkv with hkv | rfl
            · exact hacc kv hkv
            · exact hP
        · simp only [extractPrefLabels, hlg, hv, htr, if_neg, ite_false] at hd
          exact ih hstep' _ d hd hacc

theorem extractAltLabels_inv (Pk : JKey → Prop) (Pv : Json → Prop) :
    ∀ (labels : List Json),
      (∀ lab ∈ labels, ∀ lang value k,
        pyGet lab "@language" = .ok lang → pyGet lab "@value" = .ok value →
        pyTruthy lang = true → pyTruthy value = true → lang.toKey? = some k →
        Pk k ∧ Pv value) →
      ∀ acc d, extractAltLabels labels acc = .ok d →
        (∀ kv ∈ acc, Pk kv.1 ∧ ∀ v ∈ kv.2, Pv v) →
        ∀ kv ∈ d, Pk kv.1 ∧ ∀ v ∈ kv.2, Pv v := by
  intro labels
  induction labels with
  | nil =>
    intro _ acc d hd hacc
    simp only [extractAltLabels, Except.ok.injEq] at hd
    subst hd
    exact hacc
  | cons lab rest ih =>
    intro hstep acc d hd hacc
    have hstep' : ∀ lab2 ∈ rest, ∀ lang value k,
        pyGet lab2 "@language" = .ok lang → pyGet lab2 "@value" = .ok value →
        pyTruthy lang = true → pyTruthy value = true → lang.toKey? = some k →
        Pk k ∧ Pv value :=
      fun lab2 h2 => hstep lab2 (List.mem_cons_of_mem _ h2)
    cases hlg : pyGet lab "@language" with
    | error e => simp [extractAltLabels, hlg] at hd
    | ok lang =>
      cases hv : pyGet lab "@value" with
      | error e => simp [extractAltLabels, hlg, hv] at hd
      | ok value =>
        by_cases htr : (pyTruthy lang && pyTruthy value) = true
        · cases hk : lang.toKey? with
          | none => simp [extractAltLabels, hlg, hv, htr, hk] at hd
          | some k =>
            simp only [extractAltLabels, hlg, hv, htr, hk, if_pos] at hd
            have htr12 : pyTruthy lang = true ∧ pyTruthy value = true := by
              simpa using htr
            obtain ⟨htr1, htr2⟩ := htr12
            have hP := hstep lab (List.mem_cons_self _ _) lang value k hlg hv htr1 htr2 hk
            refine ih hstep' _ d hd ?_
            intro kv hkv
            rcases mem_dictAppend hkv with hkv | rfl | ⟨old, ho, rfl⟩
            · exact hacc kv hkv
            · exact ⟨hP.1, by simpa using hP.2⟩
            · refine ⟨hP.1, ?_⟩
              intro v hv2
              rcases List.mem_append.mp hv2 with hv2 | hv2
              · exact ((hacc (k, old) ho).2) v hv2
              · rw [List.mem_singleton.mp hv2]
                exact hP.2
        · simp only [extractAltLabels, hlg, hv, htr, if_neg, ite_false] at hd
          exact ih hstep' _ d hd hacc

theorem extractPrefLabels_drop (bad : Json) (hbad : labelDropped bad = true) :
    ∀ (l1 l2 : List Json) (acc : List (JKey × Json)),
      extractPrefLabels (l1 ++ bad :: l2) acc = extractPrefLabels (l1 ++ l2) acc := by
  intro l1
  induction l1 with
  | nil =>
    intro l2 acc
    cases bad with
    | obj kvs =>
      have hbad2 : pyTruthy ((objLookup kvs "@language").getD .null) = false ∨
          pyTruthy ((objLookup kvs "@value").getD .null) = false := by
        simpa [labelDropped] using hbad
      have hcond : (pyTruthy ((objLookup kvs "@language").getD .null) &&
          pyTruthy ((objLookup kvs "@value").getD .null)) = false := by
        rcases hbad2 with h | h <;> simp [h]
      simp [extractPrefLabels, pyGet, hcond]
    | null => simp [labelDropped] at hbad
    | bool b => simp [labelDropped] at hbad
    | num n => simp [labelDropped] at hbad
    | str s => simp [labelDropped] at hbad
    | arr l => simp [labelDropped] at hbad
  | cons x l1 ih =>
    intro l2 acc
    cases hlg : pyGet x "@language" with
    | error e => simp [extractPrefLabels, hlg]
    | ok lang =>
      cases hv : pyGet x "@value" with
      | error e => simp [extractPrefLabels, hlg, hv]
      | ok value =>
        by_cases htr : (pyTruthy lang && pyTruthy value) = true
        · cases hk : lang.toKey? with
          | none => simp [extractPrefLabels, hlg, hv, htr, hk]
          | some k => simp [extractPrefLabels, hlg, hv, htr, hk, ih]
        · simp [extractPrefLabels, hlg, hv, htr, ih]

theorem extractAltLabels_drop (bad : Json) (hbad : labelDropped bad = true) :
    ∀ (l1 l2 : List Json) (acc : List (JKey × List Json)),
      extractAltLabels (l1 ++ bad :: l2) acc = extractAltLabels (l1 ++ l2) acc := by
  intro l1
  induction l1 with
  | nil =>
    intro l2 acc
    cases bad with
    | obj kvs =>
      have hbad2 : pyTruthy ((objLookup kvs "@language").getD .null) = false ∨
          pyTruthy ((objLookup kvs "@value").getD .null) = false := by
        simpa [labelDropped] using hbad
      have hcond : (pyTruthy ((objLookup kvs "@language").getD .null) &&
          pyTruthy ((objLookup kvs "@value").getD .null)) = false := by
        rcases hbad2 with h | h <;> simp [h]
      simp [extractAltLabels, pyGet, hcond]
    | null => simp [labelDropped] at hbad
    | bool b => simp [labelDropped] at hbad
    | num n => simp [labelDropped] at hbad
    | str s => simp [labelDropped] at hbad
    | arr l => simp [labelDropped] at hbad
  | cons x l1 ih =>
    intro l2 acc
    cases hlg : pyGet x "@language" with
    | error e => simp [extractAltLabels, hlg]
    | ok lang =>
      cases hv : pyGet x "@value" with
      | error e => simp [extractAltLabels, hlg, hv]
      | ok value =>
        by_cases htr : (pyTruthy lang && pyTruthy value) = true
        · cases hk : lang.toKey? with
          | none => simp [extractAltLabels, hlg, hv, htr, hk]
          | some k => simp [extractAltLabels, hlg, hv, htr, hk, ih]
        · simp [extractAltLabels, hlg, hv, htr, ih]

theorem stringTyped_step (labels : List Json)
    (hty : ∀ lab ∈ labels, labelStringTyped lab) :
    ∀ lab ∈ labels, ∀ lang value k,
      pyGet lab "@language" = .ok lang → pyGet lab "@value" = .ok value →
      pyTruthy lang = true → pyTruthy value = true → lang.toKey? = some k →
      (∃ s, k = JKey.kstr s ∧ s ≠ "") ∧ (∃ s, value = Json.str s ∧ s ≠ "") := by
  intro lab hlab lang value k hlg hv ht1 ht2 hk
  cases lab with
  | obj kvs =>
    obtain ⟨hL, hV⟩ := hty _ hlab kvs rfl
    simp only [pyGet, Except.ok.injEq] at hlg hv
    constructor
    · cases ho : objLookup kvs "@language" with
      | none =>
        rw [ho] at hlg
        simp only [Option.getD_none] at hlg
        rw [← hlg] at ht1
        simp [pyTruthy] at ht1
      | some j =>
        obtain ⟨s, rfl⟩ := hL j ho
        rw [ho] at hlg
        simp only [Option.getD_some] at hlg
        rw [← hlg] at hk ht1
        simp only [Json.toKey?, Option.some.injEq] at hk
        simp only [pyTruthy, bne_iff_ne, ne_eq] at ht1
        exact ⟨s, hk.symm, ht1⟩
    · cases ho : objLookup kvs "@value" with
      | none =>
        rw [ho] at hv
        simp only [Option.getD_none] at hv
        rw [← hv] at ht2
        simp [pyTruthy] at ht2
      | some j =>
        obtain ⟨s, rfl⟩ := hV j ho
        rw [ho] at hv
        simp only [Option.getD_some] at hv
        rw [← hv] at ht2
        simp only [pyTruthy, bne_iff_ne, ne_eq] at ht2
        exact ⟨s, hv.symm, ht2⟩
  | null => simp [pyGet] at hlg
  | bool b => simp [pyGet] at hlg
  | num n => simp [pyGet] at hlg
  | str s => simp [pyGet] at hlg
  | arr l => simp [pyGet] at hlg

/-- C9 (amended): in the multilingual loader's label loops, every
(language, value) pair whose language or value is missing or *falsy*
(Python's `if lang and value:` guard — the empty string, but also null,
zero, false, or an empty container) is silently dropped, and every kept
entry has a truthy language key and truthy value(s); consequently
whenever the label fields are JSON strings (as in a well-formed JSON-LD
export), every key of the loaded prefLabels/altLabels maps is a
non-empty string and every stored label is a non-empty string — but a
truthy *non-string* language or value (e.g. a number) is kept as-is, so
the string-ness part of the claim holds only under that typing
assumption. -/
theorem c9_label_guard :
    (∀ bad : Json, labelDropped bad = true → ∀ (l1 l2 : List Json) (acc),
      extractPrefLabels (l1 ++ bad :: l2) acc = extractPrefLabels (l1 ++ l2) acc) ∧
    (∀ bad : Json, labelDropped bad = true → ∀ (l1 l2 : List Json) (acc),
      extractAltLabels (l1 ++ bad :: l2) acc = extractAltLabels (l1 ++ l2) acc) ∧
    (∀ labels d, extractPrefLabels labels [] = .ok d →
      ∀ kv ∈ d, pyTruthy kv.1.toJson = true ∧ pyTruthy kv.2 = true) ∧
    (∀ labels d, extractAltLabels labels [] = .ok d →
      ∀ kv ∈ d, pyTruthy kv.1.toJson = true ∧ ∀ v ∈ kv.2, pyTruthy v = true) ∧
    (∀ labels d, (∀ lab ∈ labels, labelStringTyped lab) →
      extractPrefLabels labels [] = .ok d →
      ∀ kv ∈ d, (∃ s, kv.1 = JKey.kstr s ∧ s ≠ "") ∧
        (∃ v, kv.2 = Json.str v ∧ v ≠ "")) ∧
    (∀ labels d, (∀ lab ∈ labels, labelStringTyped lab) →
      extractAltLabels labels [] = .ok d →
      ∀ kv ∈ d, (∃ s, kv.1 = JKey.kstr s ∧ s ≠ "") ∧
        ∀ v ∈ kv.2, ∃ s, v = Json.str s ∧ s ≠ "") := by
  refine ⟨extractPrefLabels_drop, extractAltLabels_drop, ?_, ?_, ?_, ?_⟩
  · intro labels d hd
    refine extractPrefLabels_inv (fun k => pyTruthy k.toJson = true)
      (fun v => pyTruthy v = true) labels ?_ [] d hd (by simp)
    intro lab _ lang value k _ _ ht1 ht2 hk
    refine ⟨?_, ht2⟩
    show pyTruthy k.toJson = true
    rw [toKey_toJson hk]
    exact ht1
  · intro labels d hd
    refine extractAltLabels_inv (fun k => pyTruthy k.toJson = true)
      (fun v => pyTruthy v = true) labels ?_ [] d hd (by simp)
    intro lab _ lang value k _ _ ht1 ht2 hk
    refine ⟨?_, ht2⟩
    show pyTruthy k.toJson = true
    rw [toKey_toJson hk]
    exact ht1
  · intro labels d hty hd
    exact extractPrefLabels_inv (fun k => ∃ s, k = JKey.kstr s ∧ s ≠ "")
      (fun v => ∃ s, v = Json.str s ∧ s ≠ "") labels (stringTyped_step labels hty)
      [] d hd (by simp)
  · intro labels d hty hd
    exact extractAltLabels_inv (fun k => ∃ s, k = JKey.kstr s ∧ s ≠ "")
      (fun v => ∃ s, v = Json.str s ∧ s ≠ "") labels (stringTyped_step labels hty)
      [] d hd (by simp)

/-- C9 counterexample: the claim's consequence ("every key of the loaded
maps is a non-empty language tag, every stored label a non-empty
string") fails as stated: a pair with the truthy *numeric* language tag
`1` passes the `if lang and value:` guard, and the loaded prefLabels map
has the non-string key `1`. -/
theorem c9_counterexample :
    load_elsst_data (.parsed cexDoc9) =
      .ok [(.kstr "c1", ⟨.str "c1", [(.knum 1, .str "x")], [], .null⟩)] ∧
    (∀ s : String, (JKey.knum 1) ≠ JKey.kstr s) :=
  ⟨rfl, fun _ h => JKey.noConfusion h⟩

/-- Closed instantiation of `c9_label_guard`: a label dict lacking a
`@value` is dropped by the prefLabel loop. -/
theorem c9_label_guard_witness :
    extractPrefLabels [Json.obj [("@language", Json.str "en")]] [] =
      extractPrefLabels [] [] :=
  (c9_label_guard).1 (Json.obj [("@language", Json.str "en")]) (by rfl) [] [] []
